import Mathlib

/-!
Verification development for the PaperBuddy dashboard's client-side core:
the state normalizer (`normalizeStoredValue`, `sanitizeExam`, `sanitizeSubject`,
`isValidAppState`), the exam payload builder (`prepareExamPayload` in its
local-storage and remote variants), the focus-time analytics aggregator
(`productivityStats`), and the Pomodoro timer's event-step semantics.

JavaScript runtime values that can reach the normalizer are modelled by the
mutual inductive `JsValue` (JSON shapes: null, booleans, numbers, strings,
arrays, objects).  JavaScript numbers are modelled as `Option ℚ`: `some q` is
a finite number, `none` stands for the non-finite values (`NaN`, `±Infinity`),
which every code path under study treats alike via `Number.isFinite` guards.
Fresh identifier generation (`crypto.randomUUID` / `Math.random`) is modelled
by an explicitly threaded counter: `createId` consumes one counter value per
generated id.
-/

attribute [local semireducible] Rat.add Rat.mul Rat.sub Rat.inv Rat.ofScientific

mutual

inductive JsValue where
  | null : JsValue
  | bool (b : Bool) : JsValue
  | num (x : Option ℚ) : JsValue
  | str (s : String) : JsValue
  | arr (xs : JsArr) : JsValue
  | obj (fs : JsObj) : JsValue

inductive JsArr where
  | nil : JsArr
  | cons (v : JsValue) (rest : JsArr) : JsArr

inductive JsObj where
  | nil : JsObj
  | cons (k : String) (v : JsValue) (rest : JsObj) : JsObj

end

/-- The elements of a JavaScript array, as a Lean list. -/
def JsArr.toList : JsArr → List JsValue
  | .nil => []
  | .cons v rest => v :: rest.toList

/-- Build a JavaScript array from a Lean list of values. -/
def JsArr.ofList : List JsValue → JsArr
  | [] => .nil
  | v :: rest => .cons v (JsArr.ofList rest)

/-- Property lookup on an object: the first binding of the key, if any
(JavaScript objects have unique keys; absent key models `undefined`). -/
def JsObj.get : JsObj → String → Option JsValue
  | .nil, _ => none
  | .cons k v rest, key => if k = key then some v else rest.get key

/-- Build an object from a list of key/value bindings (in source order). -/
def JsObj.ofFields : List (String × JsValue) → JsObj
  | [] => .nil
  | (k, v) :: rest => .cons k v (JsObj.ofFields rest)

/-- `raw.key` property access: defined on objects, `undefined` (here `none`)
on every other value.  The string keys used by the code under study are never
array indices, so arrays have none of them as own properties. -/
def JsValue.fieldOf : JsValue → String → Option JsValue
  | .obj fs, key => fs.get key
  | _, _ => none

/-- The `!raw || typeof raw !== "object"` guard of the sanitizers, negated:
`true` exactly for arrays and (non-null) objects.  `null` has
`typeof "object"` in JavaScript but is falsy, so it fails the guard. -/
def JsValue.objectLike : JsValue → Bool
  | .arr _ => true
  | .obj _ => true
  | _ => false

/-- The `a ?? b` operator: `b` when `a` is absent (`undefined`) or `null`. -/
def jsCoalesce (a : Option JsValue) (b : JsValue) : JsValue :=
  match a with
  | none => b
  | some .null => b
  | some v => v

/-- `s.trim()`: strip leading and trailing whitespace.  (Defined by
structural recursion over the character list; Lean's built-in `String.trim`
is extensionally the same but is defined by well-founded recursion on byte
positions, which blocks kernel evaluation.) -/
def jsTrim (s : String) : String :=
  ⟨((s.data.dropWhile Char.isWhitespace).reverse.dropWhile Char.isWhitespace).reverse⟩

/-- Numeric value of a digit string (most significant first). -/
def digitsVal (cs : List Char) : Nat :=
  cs.foldl (fun a c => a * 10 + (c.toNat - 48)) 0

/-- `Number(s)` for a string `s`: whitespace-trimmed; empty → `0`; otherwise an
optional sign followed by a decimal literal (`"12"`, `"3.5"`, `".5"`, `"5."`).
Anything else — including `"Infinity"` — is not a finite number (`none`).
This models the decimal fragment of JavaScript's string-to-number coercion;
the exponent/hex forms are not distinguished from `NaN` here. -/
def strToNumber (s : String) : Option ℚ :=
  let t := (jsTrim s).toList
  if t.isEmpty then some 0
  else
    let (sign, rest) : ℚ × List Char :=
      match t with
      | '-' :: r => (-1, r)
      | '+' :: r => (1, r)
      | r => (1, r)
    let intPart := rest.takeWhile Char.isDigit
    let rest₂ := rest.dropWhile Char.isDigit
    match rest₂ with
    | [] =>
      if intPart.isEmpty then none
      else some (sign * (digitsVal intPart : ℚ))
    | '.' :: frac =>
      if frac.all Char.isDigit && !(intPart.isEmpty && frac.isEmpty) then
        some (sign * ((digitsVal intPart : ℚ) + (digitsVal frac : ℚ) / (10 ^ frac.length : ℚ)))
      else none
    | _ => none

/-- `String(x)`-then-parse for the single element of a one-element array
(JavaScript coerces an array to a number through its joined string form). -/
def arrElemToNumber : JsValue → Option ℚ
  | .null => some 0
  | .num x => x
  | .str s => strToNumber s
  | _ => none

/-- `Number(v)` for an arbitrary value.  Arrays coerce through their string
form: `[]` → `0`, a one-element array coerces its element, a longer array has
a comma in its string form and is `NaN`.  A one-element array holding a
boolean or a nested structure is conservatively modelled as `NaN` (JavaScript
agrees except for nested one-element arrays, which no studied property
depends on).  Plain objects stringify to `"[object Object]"`, hence `NaN`. -/
def toNumber : JsValue → Option ℚ
  | .null => some 0
  | .bool b => some (if b then 1 else 0)
  | .num x => x
  | .str s => strToNumber s
  | .arr .nil => some 0
  | .arr (.cons v .nil) => arrElemToNumber v
  | .arr _ => none
  | .obj _ => none

/-- Pointwise addition of JavaScript numbers: any non-finite operand makes the
sum non-finite (`NaN + x`, `Infinity + x`, `Infinity − Infinity` are all
non-finite). -/
def numAdd (a b : Option ℚ) : Option ℚ :=
  match a, b with
  | some x, some y => some (x + y)
  | _, _ => none

/-- `createId(prefix)` from the source draws a random UUID (or a
`Math.random` suffix).  The model threads an explicit counter and returns
`"<prefix>-<counter>"`; each call consumes one counter value. -/
def createId (pre : String) (c : Nat) : String :=
  pre ++ "-" ++ toString c

/-- `FOCUS_DURATION = 25 * 60` seconds. -/
def focusDuration : Int := 25 * 60

/-- `BREAK_DURATION = 5 * 60` seconds. -/
def breakDuration : Int := 5 * 60

/-- `Number.isFinite(v) ? Math.max(0, v) : 0`: permissive score parsing with
a floor at 0. -/
def flooredScore (x : Option ℚ) : ℚ :=
  match x with
  | some q => max 0 q
  | none => 0

/-- `Number.isFinite(v) ? Math.min(100, Math.max(0, v)) : 0`: completion
clamped to `[0, 100]`, defaulting to 0 when not finite. -/
def clampedCompletion (x : Option ℚ) : ℚ :=
  match x with
  | some q => min 100 (max 0 q)
  | none => 0

/-- `isValidExam`: a strict type guard.  Note that it only checks
`typeof === "number"` on the numeric fields, so `NaN`, infinities and
out-of-range completions all pass, and it never checks id uniqueness. -/
def isValidExam (raw : JsValue) : Bool :=
  match raw with
  | .obj fs =>
    (match fs.get "id" with | some (.str s) => !(jsTrim s == "") | _ => false) &&
    (match fs.get "paper" with | some (.str s) => !(jsTrim s == "") | _ => false) &&
    (match fs.get "mcq" with | some (.num _) => true | _ => false) &&
    (match fs.get "essay" with | some (.num _) => true | _ => false) &&
    (match fs.get "total" with | some (.num _) => true | _ => false) &&
    (match fs.get "completion" with | some (.num _) => true | _ => false)
  | _ => false

/-- `subject.id === act` for a subject-shaped value (false when `id` is
missing or not a string, as strict equality with a string then fails). -/
def subjectIdMatches (act : String) (s : JsValue) : Bool :=
  match s.fieldOf "id" with
  | some (.str i) => i == act
  | _ => false

/-- `isValidSubject`: object with non-blank string `id` and `name` and an
`exams` array whose members all satisfy `isValidExam`. -/
def isValidSubject (raw : JsValue) : Bool :=
  match raw with
  | .obj fs =>
    (match fs.get "id" with | some (.str s) => !(jsTrim s == "") | _ => false) &&
    (match fs.get "name" with | some (.str s) => !(jsTrim s == "") | _ => false) &&
    (match fs.get "exams" with | some (.arr es) => es.toList.all isValidExam | _ => false)
  | _ => false

/-- `isValidAppState`: non-array object with a non-empty `subjects` array of
valid subjects, a string `activeSubjectId`, and some subject carrying that
id.  Uniqueness of ids and ranges of numeric fields are *not* checked. -/
def isValidAppState (raw : JsValue) : Bool :=
  match raw with
  | .obj fs =>
    match fs.get "subjects", fs.get "activeSubjectId" with
    | some (.arr subs), some (.str act) =>
      !subs.toList.isEmpty &&
      subs.toList.all isValidSubject &&
      subs.toList.any (subjectIdMatches act)
    | _, _ => false
  | _ => false

/-- Encode an exam record as the object literal the source builds. -/
def mkExam (id paper : String) (mcq essay total compl : ℚ) : JsValue :=
  .obj (JsObj.ofFields
    [("id", .str id), ("paper", .str paper), ("mcq", .num (some mcq)),
     ("essay", .num (some essay)), ("total", .num (some total)),
     ("completion", .num (some compl))])

/-- Encode a subject record as the object literal the source builds. -/
def mkSubject (id name : String) (exams : List JsValue) : JsValue :=
  .obj (JsObj.ofFields
    [("id", .str id), ("name", .str name), ("exams", .arr (JsArr.ofList exams))])

/-- `DEFAULT_EXAMS`, the fixed seed records of the default state. -/
def defaultExams : List JsValue :=
  [mkExam "exam-1" "2025 S2 MAIN PAPER 03" 15 0 15 96,
   mkExam "exam-2" "2025 FINAL PAPER 02" 8 1 9 82,
   mkExam "exam-3" "2025 FINAL PAPER 04" 13 1 14 88,
   mkExam "exam-4" "2025 FINAL PAPER 05" 12 0 12 74]

/-- `createDefaultState()`: one fresh subject named `"Physics"` holding the
seed exams, active. -/
def createDefaultState (c : Nat) : JsValue × Nat :=
  let sid := createId "subject" c
  (.obj (JsObj.ofFields
    [("subjects", .arr (JsArr.ofList [mkSubject sid "Physics" defaultExams])),
     ("activeSubjectId", .str sid)]), c + 1)

/-- `typeof v === "string" && v.trim() ? v.trim() : fallback`: the trimmed
string when non-blank, else the synthesized fallback label. -/
def sanitizedLabel (field : Option JsValue) (fallback : String) : String :=
  match field with
  | some (.str s) => if jsTrim s == "" then fallback else jsTrim s
  | _ => fallback

/-- `typeof v === "string" && v.trim() ? v : createId(pre)`: keep the original
(untrimmed) id when it is a non-blank string, otherwise generate a fresh one,
consuming one counter value. -/
def keptOrFreshId (pre : String) (field : Option JsValue) (c : Nat) : String × Nat :=
  match field with
  | some (.str s) => if jsTrim s == "" then (createId pre c, c + 1) else (s, c)
  | _ => (createId pre c, c + 1)

/-- `sanitizeExam(raw, index)`: `null` for non-objects, otherwise a repaired
exam record.  The trimmed `paper` (or `"Paper {index+1}"`), numeric fields
defaulted through `Number(raw.f ?? d)` with `Number.isFinite` fallbacks,
`completion` clamped to `[0,100]`, and the original `id` kept when it is a
non-blank string (a fresh one is generated otherwise). -/
def sanitizeExam (raw : JsValue) (index : Nat) (c : Nat) : Option JsValue × Nat :=
  if raw.objectLike then
    let paper := sanitizedLabel (raw.fieldOf "paper") ("Paper " ++ toString (index + 1))
    let mcqValue := toNumber (jsCoalesce (raw.fieldOf "mcq") (.num (some 0)))
    let essayValue := toNumber (jsCoalesce (raw.fieldOf "essay") (.num (some 0)))
    let totalValue := toNumber (jsCoalesce (raw.fieldOf "total") (.num (numAdd mcqValue essayValue)))
    let completionValue := toNumber (jsCoalesce (raw.fieldOf "completion") (.num (some 0)))
    let mcq := mcqValue.getD 0
    let essay := essayValue.getD 0
    let total := totalValue.getD (mcq + essay)
    let compl := clampedCompletion completionValue
    let idc := keptOrFreshId "exam" (raw.fieldOf "id") c
    (some (mkExam idc.1 paper mcq essay total compl), idc.2)
  else (none, c)

/-- `.map(sanitizeExam).filter(Boolean)` with the running index and the
threaded id counter. -/
def sanitizeExamList (raws : List JsValue) (index : Nat) (c : Nat) : List JsValue × Nat :=
  match raws with
  | [] => ([], c)
  | raw :: rest =>
    let ec := sanitizeExam raw index c
    let es := sanitizeExamList rest (index + 1) ec.2
    match ec.1 with
    | some e => (e :: es.1, es.2)
    | none => es

/-- `sanitizeSubject(raw, index)`: `null` for non-objects, otherwise a
repaired subject with trimmed `name` (or `"Subject {index+1}"`), the original
non-blank `id` (or a fresh one), and its `exams` array sanitized element-wise
(a non-array `exams` is treated as empty). -/
def sanitizeSubject (raw : JsValue) (index : Nat) (c : Nat) : Option JsValue × Nat :=
  if raw.objectLike then
    let name := sanitizedLabel (raw.fieldOf "name") ("Subject " ++ toString (index + 1))
    let idc := keptOrFreshId "subject" (raw.fieldOf "id") c
    let ec : List JsValue × Nat :=
      match raw.fieldOf "exams" with
      | some (.arr es) => sanitizeExamList es.toList 0 idc.2
      | _ => ([], idc.2)
    (some (mkSubject idc.1 name ec.1), ec.2)
  else (none, c)

/-- `forEach` + `push` over the subjects array: sanitize each subject,
keeping the non-null results. -/
def sanitizeSubjectList (raws : List JsValue) (index : Nat) (c : Nat) : List JsValue × Nat :=
  match raws with
  | [] => ([], c)
  | raw :: rest =>
    let sc := sanitizeSubject raw index c
    let ss := sanitizeSubjectList rest (index + 1) sc.2
    match sc.1 with
    | some s => (s :: ss.1, ss.2)
    | none => ss

/-- `sanitizedSubjects[0].id` (the list is only consulted when non-empty). -/
def firstSubjectId (l : List JsValue) : String :=
  match l with
  | s :: _ =>
    match s.fieldOf "id" with
    | some (.str i) => i
    | _ => ""
  | [] => ""

/-- `normalizeStoredValue(value)`: the state normalizer.  A valid `AppState`
is returned unchanged; an object carrying a `subjects` array is repaired
subject-by-subject with `activeSubjectId` re-resolved; a bare array is
wrapped as the exams of one fresh `"Physics"` subject; anything else yields
the default state.  Total by construction — no input throws. -/
def normalizeStoredValue (v : JsValue) (c : Nat) : JsValue × Nat :=
  if isValidAppState v then (v, c)
  else
    match v with
    | .obj fs =>
      match fs.get "subjects" with
      | some (.arr subs) =>
        let sc := sanitizeSubjectList subs.toList 0 c
        if sc.1.isEmpty then createDefaultState sc.2
        else
          let act₀ :=
            match fs.get "activeSubjectId" with
            | some (.str s) => if jsTrim s == "" then firstSubjectId sc.1 else s
            | _ => firstSubjectId sc.1
          let act := if sc.1.any (subjectIdMatches act₀) then act₀ else firstSubjectId sc.1
          (.obj (JsObj.ofFields
            [("subjects", .arr (JsArr.ofList sc.1)), ("activeSubjectId", .str act)]), sc.2)
      | _ => createDefaultState c
    | .arr xs =>
      let sid := createId "subject" c
      let ec := sanitizeExamList xs.toList 0 (c + 1)
      (.obj (JsObj.ofFields
        [("subjects", .arr (JsArr.ofList [mkSubject sid "Physics" ec.1])),
         ("activeSubjectId", .str sid)]), ec.2)
    | _ => createDefaultState c

/-- The value has an `id` property that is a non-empty string. -/
def hasNonEmptyId (e : JsValue) : Bool :=
  match e.fieldOf "id" with
  | some (.str s) => !(s == "")
  | _ => false

/-- Subject shape guaranteed by the normalizer: non-empty string `id` and an
`exams` array whose members all carry non-empty string ids. -/
def subjectShapeOk (s : JsValue) : Bool :=
  hasNonEmptyId s &&
  (match s.fieldOf "exams" with | some (.arr es) => es.toList.all hasNonEmptyId | _ => false)

/-- State shape guaranteed by the normalizer: a non-empty `subjects` array of
`subjectShapeOk` subjects and a string `activeSubjectId` carried by one of
them. -/
def stateWellFormed (v : JsValue) : Bool :=
  match v with
  | .obj fs =>
    match fs.get "subjects", fs.get "activeSubjectId" with
    | some (.arr subs), some (.str act) =>
      !subs.toList.isEmpty &&
      subs.toList.all subjectShapeOk &&
      subs.toList.any (subjectIdMatches act)
    | _, _ => false
  | _ => false

/-- The exam's `completion` is a finite number in `[0, 100]`. -/
def examCompletionOk (e : JsValue) : Bool :=
  match e.fieldOf "completion" with
  | some (.num (some q)) => decide (0 ≤ q) && decide (q ≤ 100)
  | _ => false

/-- Every exam of the subject has its completion clamped to `[0, 100]`. -/
def subjectCompletionsOk (s : JsValue) : Bool :=
  match s.fieldOf "exams" with
  | some (.arr es) => es.toList.all examCompletionOk
  | _ => false

/-- Every exam of every subject has its completion clamped to `[0, 100]`. -/
def stateCompletionsOk (v : JsValue) : Bool :=
  match v with
  | .obj fs =>
    match fs.get "subjects" with
    | some (.arr subs) => subs.toList.all subjectCompletionsOk
    | _ => false
  | _ => false

/-- The `id` strings of the state's subjects, in order. -/
def subjectIdList (v : JsValue) : List String :=
  match v with
  | .obj fs =>
    match fs.get "subjects" with
    | some (.arr subs) =>
      subs.toList.map (fun s => match s.fieldOf "id" with | some (.str i) => i | _ => "")
    | _ => []
  | _ => []

/-- Sanitized-exam shape: non-empty `id` and `paper`, finite `mcq`, `essay`
and `total`, and `completion` a finite number in `[0, 100]`. -/
def examSane (e : JsValue) : Bool :=
  hasNonEmptyId e &&
  (match e.fieldOf "paper" with | some (.str s) => !(s == "") | _ => false) &&
  (match e.fieldOf "mcq" with | some (.num (some _)) => true | _ => false) &&
  (match e.fieldOf "essay" with | some (.num (some _)) => true | _ => false) &&
  (match e.fieldOf "total" with | some (.num (some _)) => true | _ => false) &&
  examCompletionOk e

/-- The exam form of the local-storage variant (all fields raw strings). -/
structure ExamFormState where
  paper : String
  mcq : String
  essay : String
  total : String
  completion : String
deriving DecidableEq

/-- The exam form of the remote variant (no `total` field — it is always
derived). -/
structure RemoteExamFormState where
  paper : String
  mcq : String
  essay : String
  completion : String
deriving DecidableEq

/-- A validated exam payload (an exam entry without its id). -/
structure ExamPayload where
  paper : String
  mcq : ℚ
  essay : ℚ
  total : ℚ
  completion : ℚ
deriving DecidableEq

/-- `prepareExamPayload` (local-storage variant): `null` exactly when the
trimmed `paper` is empty; numeric fields parsed permissively with
`Number(...)`, `mcq`/`essay` floored at 0, `total` taken from the `total`
field when that is non-empty (floored at 0, falling back to the floored
`mcq + essay` when unparseable) and otherwise computed from the *raw* parsed
`mcq + essay`; `completion` clamped to `[0, 100]`. -/
def prepareExamPayload (form : ExamFormState) : Option ExamPayload :=
  let paper := jsTrim form.paper
  if paper == "" then none
  else
    let mcqValue := strToNumber form.mcq
    let essayValue := strToNumber form.essay
    let totalInput := if form.total == "" then numAdd mcqValue essayValue else strToNumber form.total
    let completionValue := strToNumber form.completion
    let mcq := flooredScore mcqValue
    let essay := flooredScore essayValue
    let totalCandidate : ℚ := match totalInput with
      | some q => q
      | none => mcq + essay
    let total := max 0 totalCandidate
    let compl := clampedCompletion completionValue
    some { paper := paper, mcq := mcq, essay := essay, total := total, completion := compl }

/-- `prepareExamPayload` (remote variant): same rules but `total` is always
`max(0, mcq + essay)` over the already-floored values. -/
def prepareExamPayloadRemote (form : RemoteExamFormState) : Option ExamPayload :=
  let paper := jsTrim form.paper
  if paper == "" then none
  else
    let mcqValue := strToNumber form.mcq
    let essayValue := strToNumber form.essay
    let completionValue := strToNumber form.completion
    let mcq := flooredScore mcqValue
    let essay := flooredScore essayValue
    let total := max 0 (mcq + essay)
    let compl := clampedCompletion completionValue
    some { paper := paper, mcq := mcq, essay := essay, total := total, completion := compl }

/-- `SECONDS_PER_DAY`; instants are modelled in seconds on an `Int` axis with
fixed-length local civil days. -/
def secondsPerDay : Int := 24 * 60 * 60

/-- `getStartOfDay`: local midnight at or before the instant
(`setHours(0,0,0,0)`). -/
def getStartOfDay (t : Int) : Int :=
  secondsPerDay * (t.fdiv secondsPerDay)

/-- A focus-log row: `timestamp` is the already-parsed `started_at` instant
(`none` models an ISO string `new Date` cannot parse, i.e. `NaN` time),
`duration` in seconds. -/
structure FocusEntry where
  id : String
  timestamp : Option Int
  duration : ℚ
deriving DecidableEq

/-- `ParsedFocusEntry`: the entry together with its parsed `date`. -/
structure ParsedFocusEntry where
  entry : FocusEntry
  date : Int
deriving DecidableEq

/-- `.map(parse).filter(Boolean)`: keep the entries with a valid timestamp,
pairing each with its parsed instant. -/
def parsedEntriesOf (entries : List FocusEntry) : List ParsedFocusEntry :=
  entries.filterMap (fun e => e.timestamp.map (fun t => ⟨e, t⟩))

/-- `reduce((acc, e) => acc + e.duration, 0)`. -/
def sumDurations (l : List ParsedFocusEntry) : ℚ :=
  (l.map (fun p => p.entry.duration)).sum

/-- One month-breakdown bucket: the durations of the window entries whose
instant lies in `[pStart, pEnd]` (both bounds inclusive, as instants). -/
def bucketTotal (entries : List ParsedFocusEntry) (pStart pEnd : Int) : ℚ :=
  sumDurations (entries.filter (fun p => decide (pStart ≤ p.date) && decide (p.date ≤ pEnd)))

/-- The `while (cursor <= todayStart)` loop of the month breakdown: a bucket
per 7-day step, the period end capped at `todayStart`.  The loop is embedded
with a structural fuel argument; the caller starts the cursor at
`todayStart − 29` days, so the loop runs exactly five times and any fuel
`≥ 5` computes the same list (the closed form is proved below). -/
def monthLoopAux (entries : List ParsedFocusEntry) (todayStart : Int) :
    Nat → Int → List ℚ
  | 0, _ => []
  | fuel + 1, cursor =>
    if cursor ≤ todayStart then
      bucketTotal entries cursor (min (cursor + 6 * secondsPerDay) todayStart) ::
        monthLoopAux entries todayStart fuel (cursor + 7 * secondsPerDay)
    else []

/-- The fields of `productivityStats` referenced by the verified properties.
The week-breakdown bar series and the 5-row recent-sessions list are
presentation projections of the same windows and are not modelled. -/
structure ProductivityStats where
  dayTotalSeconds : ℚ
  dayEntries : List ParsedFocusEntry
  weekTotalSeconds : ℚ
  monthTotalSeconds : ℚ
  monthBreakdown : List ℚ
deriving DecidableEq

/-- `productivityStats`: parse the focus log, drop invalid timestamps, and
aggregate the day / week / month windows (entries at or after local-midnight
cutoffs of today, today − 6 days, today − 29 days respectively), with the
month window additionally bucketed by the 7-day loop. -/
def productivityStats (entries : List FocusEntry) (now : Int) : ProductivityStats :=
  let todayStart := getStartOfDay now
  let weekStart := todayStart - 6 * secondsPerDay
  let monthStart := todayStart - 29 * secondsPerDay
  let parsed := parsedEntriesOf entries
  let dayEntries := parsed.filter (fun p => decide (todayStart ≤ p.date))
  let weekEntries := parsed.filter (fun p => decide (weekStart ≤ p.date))
  let monthEntries := parsed.filter (fun p => decide (monthStart ≤ p.date))
  { dayTotalSeconds := sumDurations dayEntries
    dayEntries := dayEntries
    weekTotalSeconds := sumDurations weekEntries
    monthTotalSeconds := sumDurations monthEntries
    monthBreakdown := monthLoopAux monthEntries todayStart 6 monthStart }

/-- The two Pomodoro session kinds; `rest` models the source's `"break"`
(a reserved word in Lean). -/
inductive SessionType where
  | focus : SessionType
  | rest : SessionType
deriving DecidableEq

/-- Nominal duration of a session. -/
def sessionDuration : SessionType → Int
  | .focus => focusDuration
  | .rest => breakDuration

/-- The session the timer toggles into. -/
def nextSession : SessionType → SessionType
  | .focus => .rest
  | .rest => .focus

/-- The timer state of the remote variant: the countdown plus the persisted
focus log (durations, in seconds, of the recorded focus entries). -/
structure TimerState where
  sessionType : SessionType
  secondsLeft : Int
  isRunning : Bool
  focusLog : List Int
deriving DecidableEq

/-- `recordFocusSession(duration)`: appends one focus entry.  `ok` collapses
its success conditions (signed-in user, configured backend, insert accepted);
when any fails the function reports an error and appends nothing. -/
def recordFocusSession (ok : Bool) (duration : Int) (log : List Int) : List Int :=
  if ok then log ++ [duration] else log

/-- The timer events: the countdown effect firing (`tick`), the start/pause
button, the skip button, the reset button, explicit session selection, and
closing the timer panel.  `ok` is the `recordFocusSession` success flag for
the events that may record. -/
inductive TimerEvent where
  | tick (ok : Bool) : TimerEvent
  | startPause : TimerEvent
  | skip (ok : Bool) : TimerEvent
  | reset : TimerEvent
  | select (t : SessionType) : TimerEvent
  | closeTimer : TimerEvent

/-- One timer transition.  `tick` models the countdown effect body: inert
when not running; at `secondsLeft ≤ 0` it stops, records the completed focus
session, and swaps sessions at the fresh full duration; otherwise one second
elapses as `max(0, prev - 1)`.  `skip` records the *nominal* duration when
skipping a focus session and swaps; `reset` returns to a fresh focus
session; `select` jumps to the chosen session's full duration. -/
def timerStep (e : TimerEvent) (s : TimerState) : TimerState :=
  match e with
  | .tick ok =>
    if s.isRunning then
      if s.secondsLeft ≤ 0 then
        let log :=
          if s.sessionType = .focus then
            recordFocusSession ok (sessionDuration s.sessionType) s.focusLog
          else s.focusLog
        let next := nextSession s.sessionType
        { sessionType := next, secondsLeft := sessionDuration next,
          isRunning := false, focusLog := log }
      else { s with secondsLeft := max 0 (s.secondsLeft - 1) }
    else s
  | .startPause => { s with isRunning := !s.isRunning }
  | .skip ok =>
    let log :=
      if s.sessionType = .focus then
        recordFocusSession ok (sessionDuration s.sessionType) s.focusLog
      else s.focusLog
    let next := nextSession s.sessionType
    { sessionType := next, secondsLeft := sessionDuration next,
      isRunning := false, focusLog := log }
  | .reset => { s with isRunning := false, sessionType := .focus, secondsLeft := focusDuration }
  | .select t => { s with sessionType := t, secondsLeft := sessionDuration t, isRunning := false }
  | .closeTimer => { s with isRunning := false }

/-- The initial timer state: a paused focus session at the full duration
with an empty log. -/
def initialTimerState : TimerState :=
  { sessionType := .focus, secondsLeft := focusDuration, isRunning := false, focusLog := [] }

/-- Run a sequence of timer events from the initial state. -/
def runTimer (evs : List TimerEvent) : TimerState :=
  evs.foldl (fun s e => timerStep e s) initialTimerState

mutual

/-- `JSON.parse(JSON.stringify(v))`: the identity on JSON-pure values except
that non-finite numbers serialize as `null`. -/
def jsonRoundTrip : JsValue → JsValue
  | .null => .null
  | .bool b => .bool b
  | .num (some q) => .num (some q)
  | .num none => .null
  | .str s => .str s
  | .arr xs => .arr (jsonRoundTripArr xs)
  | .obj fs => .obj (jsonRoundTripObj fs)

/-- Element-wise JSON round trip of an array. -/
def jsonRoundTripArr : JsArr → JsArr
  | .nil => .nil
  | .cons v rest => .cons (jsonRoundTrip v) (jsonRoundTripArr rest)

/-- Field-wise JSON round trip of an object. -/
def jsonRoundTripObj : JsObj → JsObj
  | .nil => .nil
  | .cons k v rest => .cons k (jsonRoundTrip v) (jsonRoundTripObj rest)

end

mutual

/-- The value contains no non-finite number, so `JSON.stringify` is lossless
on it. -/
def isPure : JsValue → Bool
  | .null => true
  | .bool _ => true
  | .num (some _) => true
  | .num none => false
  | .str _ => true
  | .arr xs => isPureArr xs
  | .obj fs => isPureObj fs

/-- Purity of every element of an array. -/
def isPureArr : JsArr → Bool
  | .nil => true
  | .cons v rest => isPure v && isPureArr rest

/-- Purity of every field of an object. -/
def isPureObj : JsObj → Bool
  | .nil => true
  | .cons _ v rest => isPure v && isPureObj rest

end

mutual

/-- Structural deep equality of JavaScript values (the "deep-equal" notion of
the round-trip property; as in the usual deep-equality predicates, `NaN`
compares equal to `NaN` — both are `num none` here). -/
def deepEqual : JsValue → JsValue → Bool
  | .null, .null => true
  | .bool a, .bool b => a == b
  | .num a, .num b => a == b
  | .str a, .str b => a == b
  | .arr a, .arr b => deepEqualArr a b
  | .obj a, .obj b => deepEqualObj a b
  | _, _ => false

/-- Element-wise deep equality of arrays. -/
def deepEqualArr : JsArr → JsArr → Bool
  | .nil, .nil => true
  | .cons v r, .cons w s => deepEqual v w && deepEqualArr r s
  | _, _ => false

/-- Field-wise deep equality of objects. -/
def deepEqualObj : JsObj → JsObj → Bool
  | .nil, .nil => true
  | .cons k v r, .cons l w s => k == l && deepEqual v w && deepEqualObj r s
  | _, _ => false

end

/-- Window membership test directly on a raw focus entry: a parseable
timestamp at or after the cutoff instant. -/
def inWindow (cutoff : Int) (e : FocusEntry) : Bool :=
  match e.timestamp with
  | some t => decide (cutoff ≤ t)
  | none => false

/-- An entry at 01:00 of day 100 (300 s of focus). -/
def entryTodayMorning : FocusEntry := ⟨"morning", some (100 * 86400 + 3600), 300⟩

/-- An entry at 23:00 of day 100 (600 s of focus), after the evaluation
instant but still on the same local day. -/
def entryTodayEvening : FocusEntry := ⟨"evening", some (100 * 86400 + 23 * 3600), 600⟩

/-- An entry at 23:59 of day 99 (900 s of focus). -/
def entryYesterdayLate : FocusEntry := ⟨"late", some (100 * 86400 - 60), 900⟩

/-- Noon of day 100, the evaluation instant of the spec's day-aggregation
example. -/
def noonOfDay100 : Int := 100 * 86400 + 12 * 3600

/-- Start of the k-th month-breakdown period: the month window's start plus
`k` whole weeks. -/
def monthPeriodStart (todayStart : Int) (k : Nat) : Int :=
  todayStart - 29 * secondsPerDay + 7 * secondsPerDay * k

/-- End of the k-th month-breakdown period: six days after its start, capped
at the start of the current day. -/
def monthPeriodEnd (todayStart : Int) (k : Nat) : Int :=
  min (monthPeriodStart todayStart k + 6 * secondsPerDay) todayStart

/-- The month breakdown as the claim describes it: for each of the five
7-day periods starting at the month window's start (the last one capped at
the start of today), the sum of the durations of the parsed entries whose
instant lies within the period's inclusive bounds. -/
def monthBreakdownSpec (entries : List FocusEntry) (now : Int) : List ℚ :=
  (List.range 5).map fun k =>
    bucketTotal (parsedEntriesOf entries)
      (monthPeriodStart (getStartOfDay now) k) (monthPeriodEnd (getStartOfDay now) k)

/-- A concrete already-valid state used to instantiate the identity and
round-trip theorems. -/
def validStateA : JsValue :=
  .obj (JsObj.ofFields
    [("subjects", .arr (JsArr.ofList
        [mkSubject "s1" "Math" [mkExam "e1" "Paper 1" 10 5 15 80]])),
     ("activeSubjectId", .str "s1")])

/-- A state accepted by `isValidAppState` whose single exam has a `NaN`
`completion` (in JavaScript `typeof NaN === "number"`, so the guard passes);
`JSON.stringify` turns that `NaN` into `null`, which the re-normalization
then repairs to `0`. -/
def nanCompletionState : JsValue :=
  .obj (JsObj.ofFields
    [("subjects", .arr (JsArr.ofList
        [.obj (JsObj.ofFields
          [("id", .str "s1"), ("name", .str "Math"),
           ("exams", .arr (JsArr.ofList
             [.obj (JsObj.ofFields
               [("id", .str "e1"), ("paper", .str "Paper 1"),
                ("mcq", .num (some 10)), ("essay", .num (some 5)),
                ("total", .num (some 15)), ("completion", .num none)])]))])])),
     ("activeSubjectId", .str "s1")])

/-- A stored value accepted by `isValidAppState` in which two subjects carry
the same id `"a"` and an exam carries completion `150` — the validity guard
checks neither uniqueness nor ranges, so normalization returns it as is. -/
def dupIdState : JsValue :=
  .obj (JsObj.ofFields
    [("subjects", .arr (JsArr.ofList
      [.obj (JsObj.ofFields [("id", .str "a"), ("name", .str "X"),
        ("exams", .arr (JsArr.ofList [mkExam "e" "P" 0 0 0 150]))]),
       .obj (JsObj.ofFields [("id", .str "a"), ("name", .str "Y"),
        ("exams", .arr JsArr.nil)])])),
     ("activeSubjectId", .str "a")])

theorem jsTrim_empty : jsTrim "" = "" := rfl

theorem ne_empty_of_jsTrim_ne (s : String) (h : jsTrim s ≠ "") : s ≠ "" := by
  intro h'
  subst h'
  exact h jsTrim_empty

theorem createId_ne_empty (pre : String) (c : Nat) : createId pre c ≠ "" := by
  intro h
  have := congrArg String.length h
  simp [createId, String.length_append] at this
  exact absurd this.1.2 (by decide)

theorem flooredScore_nonneg (x : Option ℚ) : 0 ≤ flooredScore x := by
  cases x with
  | none => exact le_refl 0
  | some q => exact le_max_left 0 q

theorem clampedCompletion_nonneg (x : Option ℚ) : 0 ≤ clampedCompletion x := by
  cases x with
  | none => exact le_refl 0
  | some q => exact le_min (by norm_num) (le_max_left 0 q)

theorem clampedCompletion_le (x : Option ℚ) : clampedCompletion x ≤ 100 := by
  cases x with
  | none => norm_num [clampedCompletion]
  | some q => exact min_le_left 100 (max 0 q)

/-- C5: `prepareExamPayload` (in both the local-storage and the remote
variant) returns `null` exactly when the form's `paper` field is empty after
trimming; for every form whose trimmed paper is non-empty it returns a
payload, whatever the other fields hold.  Both builders are pure Lean
functions of the form record, so they have no side effects on any state. -/
theorem prepareExamPayload_none_iff :
    (∀ f : ExamFormState, prepareExamPayload f = none ↔ jsTrim f.paper = "") ∧
    (∀ g : RemoteExamFormState, prepareExamPayloadRemote g = none ↔ jsTrim g.paper = "") := by
  constructor
  · intro f
    by_cases h : jsTrim f.paper = "" <;> simp [prepareExamPayload, h]
  · intro g
    by_cases h : jsTrim g.paper = "" <;> simp [prepareExamPayloadRemote, h]

/-- C6 (amended): in both variants the returned `mcq`, `essay` and `total`
are floored at 0.  When the `total` field is non-empty and parseable the
returned total is that value floored at 0, and when it is non-empty but
unparseable the total is `mcq + essay` over the returned (floored) values —
as the claim states.  When the `total` field is empty, however, the code
sums the *raw* parsed `mcq` and `essay` (before flooring), so the total is
`max 0 (rawMcq + rawEssay)`, which is smaller than the floored
`mcq + essay` when a raw value is negative; the floored sum is used only
when the raw sum is not finite.  The remote variant always returns
`total = mcq + essay` over the floored values. -/
theorem prepareExamPayload_numeric_rules :
    (∀ (f : ExamFormState) (p : ExamPayload), prepareExamPayload f = some p →
      0 ≤ p.mcq ∧ 0 ≤ p.essay ∧ 0 ≤ p.total ∧
      (f.total ≠ "" → ∀ q, strToNumber f.total = some q → p.total = max 0 q) ∧
      (f.total ≠ "" → strToNumber f.total = none → p.total = p.mcq + p.essay) ∧
      (f.total = "" → ∀ qm qe, strToNumber f.mcq = some qm → strToNumber f.essay = some qe →
        p.total = max 0 (qm + qe)) ∧
      (f.total = "" → numAdd (strToNumber f.mcq) (strToNumber f.essay) = none →
        p.total = p.mcq + p.essay)) ∧
    (∀ (g : RemoteExamFormState) (p : ExamPayload), prepareExamPayloadRemote g = some p →
      0 ≤ p.mcq ∧ 0 ≤ p.essay ∧ p.total = p.mcq + p.essay) := by
  constructor
  · intro f p hp
    by_cases hpaper : jsTrim f.paper = ""
    · simp [prepareExamPayload, hpaper] at hp
    · simp only [prepareExamPayload, beq_iff_eq, hpaper, if_false, Option.some.injEq] at hp
      subst hp
      refine ⟨flooredScore_nonneg _, flooredScore_nonneg _, le_max_left _ _, ?_, ?_, ?_, ?_⟩
      · intro htot q hq
        simp only [beq_iff_eq, htot, if_false, hq]
      · intro htot hq
        simp only [beq_iff_eq, htot, if_false, hq]
        exact max_eq_right (add_nonneg (flooredScore_nonneg _) (flooredScore_nonneg _))
      · intro htot qm qe hm he
        simp only [beq_iff_eq, htot, if_true, hm, he, numAdd]
      · intro htot hsum
        simp only [beq_iff_eq, htot, if_true, hsum]
        exact max_eq_right (add_nonneg (flooredScore_nonneg _) (flooredScore_nonneg _))
  · intro g p hp
    by_cases hpaper : jsTrim g.paper = ""
    · simp [prepareExamPayloadRemote, hpaper] at hp
    · simp only [prepareExamPayloadRemote, beq_iff_eq, hpaper, if_false, Option.some.injEq] at hp
      subst hp
      exact ⟨flooredScore_nonneg _, flooredScore_nonneg _,
        max_eq_right (add_nonneg (flooredScore_nonneg _) (flooredScore_nonneg _))⟩

/-- C6 counterexample: with `total` left empty and `mcq = "-5"`,
`prepareExamPayload` returns `mcq = 0`, `essay = 3` but `total = 0`
(`max 0 (-5 + 3)`), while the claim requires `total = mcq + essay = 3`. -/
theorem prepareExamPayload_total_raw_sum_cex :
    prepareExamPayload ⟨"P", "-5", "3", "", ""⟩ = some ⟨"P", 0, 3, 0, 0⟩ ∧
    (⟨"P", 0, 3, 0, 0⟩ : ExamPayload).total ≠
      (⟨"P", 0, 3, 0, 0⟩ : ExamPayload).mcq + (⟨"P", 0, 3, 0, 0⟩ : ExamPayload).essay := by
  constructor
  · decide
  · decide

/-- Witness for `prepareExamPayload_numeric_rules` at a concrete form with
an explicit parseable total. -/
theorem prepareExamPayload_numeric_rules_witness :
    prepareExamPayload ⟨"P", "2", "3", "10", ""⟩ = some ⟨"P", 2, 3, 10, 0⟩ ∧
    0 ≤ (⟨"P", 2, 3, 10, 0⟩ : ExamPayload).mcq ∧
    0 ≤ (⟨"P", 2, 3, 10, 0⟩ : ExamPayload).essay :=
  ⟨by decide,
   (prepareExamPayload_numeric_rules.1 ⟨"P", "2", "3", "10", ""⟩ ⟨"P", 2, 3, 10, 0⟩ (by decide)).1,
   (prepareExamPayload_numeric_rules.1 ⟨"P", "2", "3", "10", ""⟩ ⟨"P", 2, 3, 10, 0⟩ (by decide)).2.1⟩

theorem sessionDuration_pos (t : SessionType) : 0 < sessionDuration t := by
  cases t <;> decide

/-- C7: in the remote variant, a successful skip during a focus session
appends exactly one focus entry whose duration is the full nominal focus
duration (`25 * 60 = 1500` seconds) — whatever `secondsLeft` holds — and a
skip during a break session appends nothing. -/
theorem handleSkipSession_focus_records (s : TimerState) :
    (s.sessionType = SessionType.focus →
      (timerStep (.skip true) s).focusLog = s.focusLog ++ [focusDuration]) ∧
    (s.sessionType = SessionType.rest →
      ∀ ok, (timerStep (.skip ok) s).focusLog = s.focusLog) ∧
    focusDuration = 25 * 60 := by
  refine ⟨?_, ?_, rfl⟩
  · intro h
    simp [timerStep, h, recordFocusSession, sessionDuration]
  · intro h ok
    simp [timerStep, h]

/-- Witness for `handleSkipSession_focus_records`: a focus-session skip from
the initial state records `[1500]`; a break-session skip records nothing. -/
theorem handleSkipSession_focus_records_witness :
    (timerStep (.skip true) initialTimerState).focusLog
        = initialTimerState.focusLog ++ [focusDuration] ∧
    (timerStep (.skip false) ⟨SessionType.rest, 42, true, [7]⟩).focusLog
        = (⟨SessionType.rest, 42, true, [7]⟩ : TimerState).focusLog :=
  ⟨(handleSkipSession_focus_records initialTimerState).1 rfl,
   (handleSkipSession_focus_records ⟨SessionType.rest, 42, true, [7]⟩).2.1 rfl false⟩

theorem timerStep_secondsLeft_nonneg (e : TimerEvent) (s : TimerState)
    (h : 0 ≤ s.secondsLeft) : 0 ≤ (timerStep e s).secondsLeft := by
  cases e with
  | tick ok =>
    by_cases hr : s.isRunning
    · by_cases hz : s.secondsLeft ≤ 0
      · simp only [timerStep, hr, hz, if_true, if_pos]
        exact le_of_lt (sessionDuration_pos _)
      · simp only [timerStep, hr, hz, if_true, if_false, Bool.false_eq_true, ite_false, ite_true]
        exact le_max_left 0 (s.secondsLeft - 1)
    · simpa [timerStep, hr] using h
  | startPause => simpa [timerStep] using h
  | skip ok => simpa [timerStep] using le_of_lt (sessionDuration_pos _)
  | reset => simp [timerStep]; decide
  | select t => simpa [timerStep] using le_of_lt (sessionDuration_pos _)
  | closeTimer => simpa [timerStep] using h

theorem runTimerAux_nonneg (evs : List TimerEvent) :
    ∀ s : TimerState, 0 ≤ s.secondsLeft →
      0 ≤ (evs.foldl (fun s e => timerStep e s) s).secondsLeft := by
  induction evs with
  | nil => intro s h; exact h
  | cons e rest ih => intro s h; exact ih _ (timerStep_secondsLeft_nonneg e s h)

/-- C9: in every state reachable from the initial timer state by any event
sequence, `secondsLeft` is non-negative; a tick of a running timer with
positive `secondsLeft` decrements it by exactly 1 (the `Math.max(0, ...)`
guard keeps it at 0 otherwise); every session duration is positive; and
skip, reset and session-select all install a fixed positive full session
duration. -/
theorem secondsLeft_never_negative :
    (∀ evs : List TimerEvent, 0 ≤ (runTimer evs).secondsLeft) ∧
    (∀ (s : TimerState) (ok : Bool), s.isRunning = true → 0 < s.secondsLeft →
      (timerStep (.tick ok) s).secondsLeft = s.secondsLeft - 1) ∧
    (∀ t : SessionType, 0 < sessionDuration t) ∧
    (∀ (s : TimerState) (ok : Bool) (t : SessionType),
      (timerStep (.skip ok) s).secondsLeft = sessionDuration (nextSession s.sessionType) ∧
      (timerStep .reset s).secondsLeft = focusDuration ∧
      (timerStep (.select t) s).secondsLeft = sessionDuration t) := by
  refine ⟨?_, ?_, sessionDuration_pos, ?_⟩
  · intro evs
    exact runTimerAux_nonneg evs initialTimerState (by decide)
  · intro s ok hr hp
    have hz : ¬ s.secondsLeft ≤ 0 := by omega
    simp [timerStep, hr, hz]
    omega
  · intro s ok t
    refine ⟨by simp [timerStep], by simp [timerStep], by simp [timerStep]⟩

/-- Witness for `secondsLeft_never_negative` at a concrete event sequence
and a concrete running state with 10 seconds left. -/
theorem secondsLeft_never_negative_witness :
    0 ≤ (runTimer [TimerEvent.startPause, TimerEvent.tick true]).secondsLeft ∧
    (timerStep (.tick true) ⟨SessionType.focus, 10, true, []⟩).secondsLeft
      = (⟨SessionType.focus, 10, true, []⟩ : TimerState).secondsLeft - 1 :=
  ⟨secondsLeft_never_negative.1 _,
   secondsLeft_never_negative.2.1 ⟨SessionType.focus, 10, true, []⟩ true rfl (by decide)⟩

theorem parsed_filter_map_entry (entries : List FocusEntry) (cutoff : Int) :
    ((parsedEntriesOf entries).filter (fun p => decide (cutoff ≤ p.date))).map
        ParsedFocusEntry.entry
      = entries.filter (inWindow cutoff) := by
  induction entries with
  | nil => rfl
  | cons e rest ih =>
    cases h : e.timestamp with
    | none =>
      simp only [parsedEntriesOf, List.filterMap_cons, h, Option.map_none'] at ih ⊢
      simpa [List.filter_cons, inWindow, h] using ih
    | some t =>
      simp only [parsedEntriesOf, List.filterMap_cons, h, Option.map_some'] at ih ⊢
      by_cases hc : cutoff ≤ t
      · simpa [List.filter_cons, inWindow, h, hc] using ih
      · simpa [List.filter_cons, inWindow, h, hc] using ih

theorem parsed_filter_sum (entries : List FocusEntry) (cutoff : Int) :
    sumDurations ((parsedEntriesOf entries).filter (fun p => decide (cutoff ≤ p.date)))
      = ((entries.filter (inWindow cutoff)).map FocusEntry.duration).sum := by
  rw [sumDurations, show (fun p : ParsedFocusEntry => p.entry.duration)
      = FocusEntry.duration ∘ ParsedFocusEntry.entry from rfl,
    ← List.map_map, parsed_filter_map_entry]

/-- C3: the day window of `productivityStats` contains exactly the focus
entries with a parseable timestamp at or after the start of the current
local day, and the day total is the sum of their durations; in particular,
for entries at today 01:00 (300 s), today 23:00 (600 s) and yesterday 23:59
(900 s) evaluated at noon, the total is 900 and the yesterday entry is
excluded while the 23:00 entry — later than "now" — is included. -/
theorem productivityStats_day_window :
    (∀ (entries : List FocusEntry) (now : Int),
      (productivityStats entries now).dayEntries.map ParsedFocusEntry.entry
        = entries.filter (inWindow (getStartOfDay now)) ∧
      (productivityStats entries now).dayTotalSeconds
        = ((entries.filter (inWindow (getStartOfDay now))).map FocusEntry.duration).sum) ∧
    (productivityStats [entryTodayMorning, entryTodayEvening, entryYesterdayLate]
        noonOfDay100).dayTotalSeconds = 900 ∧
    (productivityStats [entryTodayMorning, entryTodayEvening, entryYesterdayLate]
        noonOfDay100).dayEntries.map ParsedFocusEntry.entry
      = [entryTodayMorning, entryTodayEvening] := by
  refine ⟨?_, by decide, by decide⟩
  intro entries now
  constructor
  · simpa only [productivityStats] using
      parsed_filter_map_entry entries (getStartOfDay now)
  · simpa only [productivityStats] using
      parsed_filter_sum entries (getStartOfDay now)

theorem monthLoopAux_closed (E : List ParsedFocusEntry) (T : Int) :
    monthLoopAux E T 6 (T - 29 * secondsPerDay) =
      [bucketTotal E (monthPeriodStart T 0) (monthPeriodEnd T 0),
       bucketTotal E (monthPeriodStart T 1) (monthPeriodEnd T 1),
       bucketTotal E (monthPeriodStart T 2) (monthPeriodEnd T 2),
       bucketTotal E (monthPeriodStart T 3) (monthPeriodEnd T 3),
       bucketTotal E (monthPeriodStart T 4) (monthPeriodEnd T 4)] := by
  have hD : secondsPerDay = 86400 := rfl
  rw [monthLoopAux, if_pos (by omega)]
  rw [monthLoopAux, if_pos (by omega)]
  rw [monthLoopAux, if_pos (by omega)]
  rw [monthLoopAux, if_pos (by omega)]
  rw [monthLoopAux, if_pos (by omega)]
  rw [monthLoopAux, if_neg (by omega)]
  simp only [monthPeriodStart, monthPeriodEnd]
  norm_num
  repeat' apply And.intro
  all_goals (congr 1 <;> omega)

theorem bucketTotal_filter_absorb (l : List ParsedFocusEntry) (m a b : Int) (h : m ≤ a) :
    bucketTotal (l.filter (fun p => decide (m ≤ p.date))) a b = bucketTotal l a b := by
  unfold bucketTotal
  rw [List.filter_filter]
  congr 1
  apply List.filter_congr
  intro p _
  by_cases ha : a ≤ p.date
  · by_cases hb : p.date ≤ b <;> simp [ha, hb, show m ≤ p.date by omega]
  · simp [ha]

/-- C4 (amended): the month breakdown has one bucket per 7-day period
`[monthStart + 7k days, min(monthStart + (7k+6) days, todayStart)]` for
`k < 5`, each summing the durations of the entries whose instant lies within
the period's inclusive bounds, and the periods are pairwise disjoint, so no
entry is counted twice.  The claim's stronger statement — that every
month-window entry lands in exactly one bucket so the buckets sum to the
month total — fails: the bounds are instants, so timestamps strictly between
one period's end and the next period's start (and today's timestamps after
local midnight) fall in no bucket (see the counterexample). -/
theorem productivityStats_month_buckets :
    (∀ (entries : List FocusEntry) (now : Int),
      (productivityStats entries now).monthBreakdown = monthBreakdownSpec entries now) ∧
    (∀ (T t : Int) (k₁ k₂ : Nat), k₁ < 5 → k₂ < 5 →
      monthPeriodStart T k₁ ≤ t → t ≤ monthPeriodEnd T k₁ →
      monthPeriodStart T k₂ ≤ t → t ≤ monthPeriodEnd T k₂ → k₁ = k₂) := by
  have hD : secondsPerDay = 86400 := rfl
  constructor
  · intro entries now
    simp only [productivityStats]
    rw [monthLoopAux_closed, monthBreakdownSpec]
    rw [show List.range 5 = [0, 1, 2, 3, 4] from rfl]
    simp only [List.map_cons, List.map_nil, List.cons.injEq, and_true]
    refine ⟨?_, ?_, ?_, ?_, ?_⟩ <;>
      exact bucketTotal_filter_absorb _ _ _ _ (by simp only [monthPeriodStart]; omega)
  · intro T t k₁ k₂ h1 h2 h3 h4 h5 h6
    simp only [monthPeriodStart, monthPeriodEnd, le_min_iff, hD] at h3 h4 h5 h6
    omega

/-- C4 counterexample: a single entry today at 01:00 lies in the month
window (total 300) yet in no bucket — every bucket ends at an instant no
later than today's local midnight — so the bucket values sum to 0, not to
the month-window total. -/
theorem monthBreakdown_omits_entries_cex :
    (productivityStats [entryTodayMorning] noonOfDay100).monthTotalSeconds = 300 ∧
    (productivityStats [entryTodayMorning] noonOfDay100).monthBreakdown.sum = 0 := by
  constructor
  · decide
  · decide

/-- Witness for `productivityStats_month_buckets` at the empty entry list
and concrete period indices. -/
theorem productivityStats_month_buckets_witness :
    (productivityStats [] 0).monthBreakdown = monthBreakdownSpec [] 0 ∧ (0 : Nat) = 0 :=
  ⟨productivityStats_month_buckets.1 [] 0,
   productivityStats_month_buckets.2 0 (-29 * 86400) 0 0 (by decide) (by decide)
     (by decide) (by decide) (by decide) (by decide)⟩

theorem JsArr.toList_ofList (l : List JsValue) : (JsArr.ofList l).toList = l := by
  induction l with
  | nil => rfl
  | cons v rest ih => simp [JsArr.ofList, JsArr.toList, ih]

theorem append_ne_empty_left (s t : String) (h : s ≠ "") : s ++ t ≠ "" := by
  intro h'
  apply h
  have hl := congrArg String.length h'
  rw [String.length_append] at hl
  simp only [String.length_empty] at hl
  have h0 : s.length = 0 := by omega
  exact String.ext (List.length_eq_zero.mp h0)

theorem sanitizedLabel_ne_empty (f : Option JsValue) (fb : String) (hfb : fb ≠ "") :
    sanitizedLabel f fb ≠ "" := by
  unfold sanitizedLabel
  rcases f with _ | v
  · exact hfb
  · cases v <;> try exact hfb
    case str s =>
      change (if (jsTrim s == "") = true then fb else jsTrim s) ≠ ""
      by_cases h : jsTrim s = ""
      · rw [if_pos (by simp [h])]
        exact hfb
      · rw [if_neg (by simp [h])]
        exact h

theorem keptOrFreshId_ne_empty (pre : String) (f : Option JsValue) (c : Nat) :
    (keptOrFreshId pre f c).1 ≠ "" := by
  unfold keptOrFreshId
  rcases f with _ | v
  · exact createId_ne_empty pre c
  · cases v <;> try exact createId_ne_empty pre c
    case str s =>
      by_cases h : jsTrim s = ""
      · simpa [h] using createId_ne_empty pre c
      · simpa [h] using ne_empty_of_jsTrim_ne s h

theorem examSane_mkExam (id paper : String) (mcq essay total compl : ℚ)
    (hid : id ≠ "") (hp : paper ≠ "") (h0 : 0 ≤ compl) (h1 : compl ≤ 100) :
    examSane (mkExam id paper mcq essay total compl) = true := by
  simp [examSane, mkExam, hasNonEmptyId, examCompletionOk, JsValue.fieldOf,
    JsObj.ofFields, JsObj.get, hid, hp, h0, h1]

theorem sanitizeExam_sane (raw : JsValue) (index c : Nat) (e : JsValue)
    (he : (sanitizeExam raw index c).1 = some e) : examSane e = true := by
  have hobj : raw.objectLike = true := by
    cases raw <;> first
      | rfl
      | simp [sanitizeExam, JsValue.objectLike] at he
  rw [show e = mkExam (keptOrFreshId "exam" (raw.fieldOf "id") c).1
        (sanitizedLabel (raw.fieldOf "paper") ("Paper " ++ toString (index + 1)))
        ((toNumber (jsCoalesce (raw.fieldOf "mcq") (.num (some 0)))).getD 0)
        ((toNumber (jsCoalesce (raw.fieldOf "essay") (.num (some 0)))).getD 0)
        ((toNumber (jsCoalesce (raw.fieldOf "total")
            (.num (numAdd (toNumber (jsCoalesce (raw.fieldOf "mcq") (.num (some 0))))
              (toNumber (jsCoalesce (raw.fieldOf "essay") (.num (some 0)))))))).getD
          (((toNumber (jsCoalesce (raw.fieldOf "mcq") (.num (some 0)))).getD 0) +
            ((toNumber (jsCoalesce (raw.fieldOf "essay") (.num (some 0)))).getD 0)))
        (clampedCompletion (toNumber (jsCoalesce (raw.fieldOf "completion") (.num (some 0)))))
      by simpa [sanitizeExam, hobj] using he.symm]
  exact examSane_mkExam _ _ _ _ _ _
    (keptOrFreshId_ne_empty _ _ _)
    (sanitizedLabel_ne_empty _ _ (append_ne_empty_left _ _ (by decide)))
    (clampedCompletion_nonneg _) (clampedCompletion_le _)

theorem sanitizeSubject_shape (raw : JsValue) (index c : Nat) :
    (sanitizeSubject raw index c).1 = none ↔ raw.objectLike = false := by
  cases raw <;> simp [sanitizeSubject, JsValue.objectLike]

/-- C10: `sanitizeExam` returns `null` exactly when its input is not
object-like (`null`, booleans, numbers and strings; JavaScript arrays are
objects and pass the guard), and for every object-like input it returns a
complete exam entry — non-empty `paper` and `id`, finite numeric fields,
completion clamped to `[0, 100]`; likewise `sanitizeSubject` returns `null`
only for non-object inputs.  Hence an object-shaped exam is never filtered
out, no matter how malformed its fields are. -/
theorem sanitize_drop_characterization :
    (∀ (raw : JsValue) (index c : Nat),
      ((sanitizeExam raw index c).1 = none ↔ raw.objectLike = false)) ∧
    (∀ (raw : JsValue) (index c : Nat) (e : JsValue),
      (sanitizeExam raw index c).1 = some e → examSane e = true) ∧
    (∀ (raw : JsValue) (index c : Nat),
      ((sanitizeSubject raw index c).1 = none ↔ raw.objectLike = false)) := by
  refine ⟨?_, sanitizeExam_sane, sanitizeSubject_shape⟩
  intro raw index c
  cases raw <;> simp [sanitizeExam, JsValue.objectLike]

/-- Witness for `sanitize_drop_characterization`: the empty object
sanitizes to a fully defaulted exam record, which is sane. -/
theorem sanitize_drop_characterization_witness :
    (sanitizeExam (.obj .nil) 0 0).1 = some (mkExam "exam-0" "Paper 1" 0 0 0 0) ∧
    examSane (mkExam "exam-0" "Paper 1" 0 0 0 0) = true :=
  ⟨rfl,
   sanitize_drop_characterization.2.1 (.obj .nil) 0 0 (mkExam "exam-0" "Paper 1" 0 0 0 0) rfl⟩

theorem normalize_of_valid (v : JsValue) (c : Nat) (h : isValidAppState v = true) :
    normalizeStoredValue v c = (v, c) := by
  simp [normalizeStoredValue, h]

/-- C2: when the stored value already satisfies `isValidAppState`,
`normalizeStoredValue` returns that exact value (the model's counterpart of
returning the same reference, with the id counter untouched); consequently
normalization is idempotent on already-valid values. -/
theorem normalizeStoredValue_identity_on_valid (v : JsValue) (c c' : Nat)
    (h : isValidAppState v = true) :
    normalizeStoredValue v c = (v, c) ∧
    normalizeStoredValue (normalizeStoredValue v c).1 c'
      = ((normalizeStoredValue v c).1, c') := by
  refine ⟨normalize_of_valid v c h, ?_⟩
  rw [normalize_of_valid v c h]
  exact normalize_of_valid v c' h

/-- Witness for `normalizeStoredValue_identity_on_valid` at a concrete
valid state. -/
theorem normalizeStoredValue_identity_on_valid_witness :
    normalizeStoredValue validStateA 0 = (validStateA, 0) ∧
    normalizeStoredValue (normalizeStoredValue validStateA 0).1 1
      = ((normalizeStoredValue validStateA 0).1, 1) :=
  normalizeStoredValue_identity_on_valid validStateA 0 1 (by decide)

mutual

theorem jsonRoundTrip_of_isPure (v : JsValue) (h : isPure v = true) :
    jsonRoundTrip v = v := by
  cases v with
  | null => rfl
  | bool b => rfl
  | num x =>
    cases x with
    | some q => rfl
    | none => simp [isPure] at h
  | str s => rfl
  | arr xs =>
    simp only [isPure] at h
    simp [jsonRoundTrip, jsonRoundTripArr_of_isPureArr xs h]
  | obj fs =>
    simp only [isPure] at h
    simp [jsonRoundTrip, jsonRoundTripObj_of_isPureObj fs h]

theorem jsonRoundTripArr_of_isPureArr (xs : JsArr) (h : isPureArr xs = true) :
    jsonRoundTripArr xs = xs := by
  cases xs with
  | nil => rfl
  | cons v rest =>
    simp only [isPureArr, Bool.and_eq_true] at h
    simp [jsonRoundTripArr, jsonRoundTrip_of_isPure v h.1,
      jsonRoundTripArr_of_isPureArr rest h.2]

theorem jsonRoundTripObj_of_isPureObj (fs : JsObj) (h : isPureObj fs = true) :
    jsonRoundTripObj fs = fs := by
  cases fs with
  | nil => rfl
  | cons k v rest =>
    simp only [isPureObj, Bool.and_eq_true] at h
    simp [jsonRoundTripObj, jsonRoundTrip_of_isPure v h.1,
      jsonRoundTripObj_of_isPureObj rest h.2]

end

mutual

theorem deepEqual_refl (v : JsValue) : deepEqual v v = true := by
  cases v with
  | null => rfl
  | bool b => simp [deepEqual]
  | num x => simp [deepEqual]
  | str s => simp [deepEqual]
  | arr xs => simpa [deepEqual] using deepEqualArr_refl xs
  | obj fs => simpa [deepEqual] using deepEqualObj_refl fs

theorem deepEqualArr_refl (xs : JsArr) : deepEqualArr xs xs = true := by
  cases xs with
  | nil => rfl
  | cons v rest => simp [deepEqualArr, deepEqual_refl v, deepEqualArr_refl rest]

theorem deepEqualObj_refl (fs : JsObj) : deepEqualObj fs fs = true := by
  cases fs with
  | nil => rfl
  | cons k v rest => simp [deepEqualObj, deepEqual_refl v, deepEqualObj_refl rest]

end

/-- C8 counterexample: `nanCompletionState` is accepted by
`isValidAppState`, but JSON round-tripping turns its `NaN` completion into
`null`, and re-normalization then repairs that to `0` — the result is not
deep-equal to the original state. -/
theorem roundTrip_not_deepEqual_cex :
    isValidAppState nanCompletionState = true ∧
    deepEqual (normalizeStoredValue (jsonRoundTrip nanCompletionState) 0).1
      nanCompletionState = false := by
  constructor
  · decide
  · decide

/-- C8 (amended): for every state accepted by `isValidAppState` that
contains no non-finite numbers (so `JSON.stringify` is lossless on it),
normalizing the JSON round trip yields a state deep-equal to the original.
Validity alone is not enough: `NaN` numeric fields pass the guard but do not
survive serialization (see the counterexample). -/
theorem normalize_roundTrip_deepEqual (v : JsValue) (c : Nat)
    (h : isValidAppState v = true) (hp : isPure v = true) :
    deepEqual (normalizeStoredValue (jsonRoundTrip v) c).1 v = true := by
  rw [jsonRoundTrip_of_isPure v hp, normalize_of_valid v c h]
  exact deepEqual_refl v

/-- Witness for `normalize_roundTrip_deepEqual` at a concrete pure valid
state. -/
theorem normalize_roundTrip_deepEqual_witness :
    deepEqual (normalizeStoredValue (jsonRoundTrip validStateA) 0).1 validStateA = true :=
  normalize_roundTrip_deepEqual validStateA 0 (by decide) (by decide)

theorem hasNonEmptyId_of_examSane (e : JsValue) (h : examSane e = true) :
    hasNonEmptyId e = true := by
  simp only [examSane, Bool.and_eq_true] at h
  exact h.1.1.1.1.1

theorem examCompletionOk_of_examSane (e : JsValue) (h : examSane e = true) :
    examCompletionOk e = true := by
  simp only [examSane, Bool.and_eq_true] at h
  exact h.2

theorem all_weaken {p q : JsValue → Bool} (l : List JsValue)
    (himp : ∀ x, p x = true → q x = true) (h : l.all p = true) : l.all q = true := by
  rw [List.all_eq_true] at *
  exact fun x hx => himp x (h x hx)

theorem sanitizeExamList_sane (raws : List JsValue) (index c : Nat) :
    ((sanitizeExamList raws index c).1).all examSane = true := by
  induction raws generalizing index c with
  | nil => rfl
  | cons raw rest ih =>
    simp only [sanitizeExamList]
    cases h : (sanitizeExam raw index c).1 with
    | none => exact ih (index + 1) _
    | some e =>
      simp only [List.all_cons, Bool.and_eq_true]
      exact ⟨sanitizeExam_sane raw index c e h, ih (index + 1) _⟩

theorem subjectShapeOk_mkSubject (id name : String) (exams : List JsValue)
    (hid : id ≠ "") (hex : exams.all hasNonEmptyId = true) :
    subjectShapeOk (mkSubject id name exams) = true := by
  simp [subjectShapeOk, mkSubject, hasNonEmptyId, JsValue.fieldOf, JsObj.ofFields,
    JsObj.get, JsArr.toList_ofList, hid, hex]

theorem subjectCompletionsOk_mkSubject (id name : String) (exams : List JsValue)
    (hex : exams.all examCompletionOk = true) :
    subjectCompletionsOk (mkSubject id name exams) = true := by
  simp [subjectCompletionsOk, mkSubject, JsValue.fieldOf, JsObj.ofFields, JsObj.get,
    JsArr.toList_ofList, hex]

theorem sanitizeSubject_ok (raw : JsValue) (index c : Nat) (s : JsValue)
    (hs : (sanitizeSubject raw index c).1 = some s) :
    subjectShapeOk s = true ∧ subjectCompletionsOk s = true := by
  have hobj : raw.objectLike = true := by
    cases raw <;> first
      | rfl
      | simp [sanitizeSubject, JsValue.objectLike] at hs
  cases hf : raw.fieldOf "exams" with
  | none =>
    simp only [sanitizeSubject, hobj, if_true, hf, Option.some.injEq] at hs
    subst hs
    exact ⟨subjectShapeOk_mkSubject _ _ _ (keptOrFreshId_ne_empty _ _ _) rfl,
      subjectCompletionsOk_mkSubject _ _ _ rfl⟩
  | some v =>
    cases v with
    | arr es =>
      simp only [sanitizeSubject, hobj, if_true, hf, Option.some.injEq] at hs
      subst hs
      refine ⟨subjectShapeOk_mkSubject _ _ _ (keptOrFreshId_ne_empty _ _ _) ?_,
        subjectCompletionsOk_mkSubject _ _ _ ?_⟩
      · exact all_weaken _ hasNonEmptyId_of_examSane (sanitizeExamList_sane _ _ _)
      · exact all_weaken _ examCompletionOk_of_examSane (sanitizeExamList_sane _ _ _)
    | null =>
      simp only [sanitizeSubject, hobj, if_true, hf, Option.some.injEq] at hs
      subst hs
      exact ⟨subjectShapeOk_mkSubject _ _ _ (keptOrFreshId_ne_empty _ _ _) rfl,
        subjectCompletionsOk_mkSubject _ _ _ rfl⟩
    | bool b =>
      simp only [sanitizeSubject, hobj, if_true, hf, Option.some.injEq] at hs
      subst hs
      exact ⟨subjectShapeOk_mkSubject _ _ _ (keptOrFreshId_ne_empty _ _ _) rfl,
        subjectCompletionsOk_mkSubject _ _ _ rfl⟩
    | num x =>
      simp only [sanitizeSubject, hobj, if_true, hf, Option.some.injEq] at hs
      subst hs
      exact ⟨subjectShapeOk_mkSubject _ _ _ (keptOrFreshId_ne_empty _ _ _) rfl,
        subjectCompletionsOk_mkSubject _ _ _ rfl⟩
    | str t =>
      simp only [sanitizeSubject, hobj, if_true, hf, Option.some.injEq] at hs
      subst hs
      exact ⟨subjectShapeOk_mkSubject _ _ _ (keptOrFreshId_ne_empty _ _ _) rfl,
        subjectCompletionsOk_mkSubject _ _ _ rfl⟩
    | obj gs =>
      simp only [sanitizeSubject, hobj, if_true, hf, Option.some.injEq] at hs
      subst hs
      exact ⟨subjectShapeOk_mkSubject _ _ _ (keptOrFreshId_ne_empty _ _ _) rfl,
        subjectCompletionsOk_mkSubject _ _ _ rfl⟩

theorem sanitizeSubjectList_ok (raws : List JsValue) (index c : Nat) :
    ((sanitizeSubjectList raws index c).1).all subjectShapeOk = true ∧
    ((sanitizeSubjectList raws index c).1).all subjectCompletionsOk = true := by
  induction raws generalizing index c with
  | nil => exact ⟨rfl, rfl⟩
  | cons raw rest ih =>
    simp only [sanitizeSubjectList]
    cases h : (sanitizeSubject raw index c).1 with
    | none => exact ih (index + 1) _
    | some s =>
      obtain ⟨h1, h2⟩ := sanitizeSubject_ok raw index c s h
      obtain ⟨ih1, ih2⟩ := ih (index + 1) ((sanitizeSubject raw index c).2)
      simp only [List.all_cons, Bool.and_eq_true]
      exact ⟨⟨h1, ih1⟩, ⟨h2, ih2⟩⟩

theorem any_firstSubjectId (l : List JsValue) (hne : l ≠ [])
    (hall : l.all subjectShapeOk = true) :
    l.any (subjectIdMatches (firstSubjectId l)) = true := by
  cases l with
  | nil => exact absurd rfl hne
  | cons s rest =>
    simp only [List.all_cons, Bool.and_eq_true] at hall
    have hs := hall.1
    simp only [subjectShapeOk, Bool.and_eq_true, hasNonEmptyId] at hs
    have hid := hs.1
    cases hf : s.fieldOf "id" with
    | none => simp [hf] at hid
    | some v =>
      cases v with
      | str i =>
        simp only [firstSubjectId, hf, List.any_cons, subjectIdMatches]
        simp
      | null => simp [hf] at hid
      | bool b => simp [hf] at hid
      | num x => simp [hf] at hid
      | arr xs => simp [hf] at hid
      | obj gs => simp [hf] at hid

theorem hasNonEmptyId_of_validExam (e : JsValue) (h : isValidExam e = true) :
    hasNonEmptyId e = true := by
  cases e with
  | obj fs =>
    simp only [isValidExam, Bool.and_eq_true] at h
    have hid := h.1.1.1.1.1
    simp only [hasNonEmptyId, JsValue.fieldOf]
    cases hf : fs.get "id" with
    | none => simp [hf] at hid
    | some v =>
      cases v with
      | str s =>
        simp only [hf] at hid ⊢
        simp only [Bool.not_eq_true', beq_eq_false_iff_ne, ne_eq] at hid ⊢
        exact ne_empty_of_jsTrim_ne s hid
      | null => simp [hf] at hid
      | bool b => simp [hf] at hid
      | num x => simp [hf] at hid
      | arr xs => simp [hf] at hid
      | obj gs => simp [hf] at hid
  | null => simp [isValidExam] at h
  | bool b => simp [isValidExam] at h
  | num x => simp [isValidExam] at h
  | str s => simp [isValidExam] at h
  | arr xs => simp [isValidExam] at h

theorem subjectShapeOk_of_validSubject (s : JsValue) (h : isValidSubject s = true) :
    subjectShapeOk s = true := by
  cases s with
  | obj fs =>
    simp only [isValidSubject, Bool.and_eq_true] at h
    obtain ⟨⟨hid, _⟩, hex⟩ := h
    simp only [subjectShapeOk, hasNonEmptyId, JsValue.fieldOf, Bool.and_eq_true]
    constructor
    · cases hf : fs.get "id" with
      | none => simp [hf] at hid
      | some v =>
        cases v with
        | str t =>
          simp only [hf] at hid ⊢
          simp only [Bool.not_eq_true', beq_eq_false_iff_ne, ne_eq] at hid ⊢
          exact ne_empty_of_jsTrim_ne t hid
        | null => simp [hf] at hid
        | bool b => simp [hf] at hid
        | num x => simp [hf] at hid
        | arr xs => simp [hf] at hid
        | obj gs => simp [hf] at hid
    · cases hf : fs.get "exams" with
      | none => simp [hf] at hex
      | some v =>
        cases v with
        | arr es =>
          simp only [hf] at hex ⊢
          exact all_weaken _ hasNonEmptyId_of_validExam hex
        | null => simp [hf] at hex
        | bool b => simp [hf] at hex
        | num x => simp [hf] at hex
        | str t => simp [hf] at hex
        | obj gs => simp [hf] at hex
  | null => simp [isValidSubject] at h
  | bool b => simp [isValidSubject] at h
  | num x => simp [isValidSubject] at h
  | str t => simp [isValidSubject] at h
  | arr xs => simp [isValidSubject] at h

theorem stateWellFormed_of_valid (v : JsValue) (h : isValidAppState v = true) :
    stateWellFormed v = true := by
  cases v with
  | obj fs =>
    simp only [isValidAppState] at h
    simp only [stateWellFormed]
    cases hs : fs.get "subjects" with
    | none => simp [hs] at h
    | some sv =>
      cases sv with
      | arr subs =>
        cases ha : fs.get "activeSubjectId" with
        | none => simp [hs, ha] at h
        | some av =>
          cases av with
          | str act =>
            simp only [hs, ha, Bool.and_eq_true] at h ⊢
            obtain ⟨⟨hne, hall⟩, hany⟩ := h
            exact ⟨⟨hne, all_weaken _ subjectShapeOk_of_validSubject hall⟩, hany⟩
          | null => simp [hs, ha] at h
          | bool b => simp [hs, ha] at h
          | num x => simp [hs, ha] at h
          | arr ys => simp [hs, ha] at h
          | obj gs => simp [hs, ha] at h
      | null => simp [hs] at h
      | bool b => simp [hs] at h
      | num x => simp [hs] at h
      | str t => simp [hs] at h
      | obj gs => simp [hs] at h
  | null => simp [isValidAppState] at h
  | bool b => simp [isValidAppState] at h
  | num x => simp [isValidAppState] at h
  | str s => simp [isValidAppState] at h
  | arr xs => simp [isValidAppState] at h

theorem createDefaultState_ok (c : Nat) :
    stateWellFormed (createDefaultState c).1 = true ∧
    stateCompletionsOk (createDefaultState c).1 = true := by
  have h1 : subjectShapeOk (mkSubject (createId "subject" c) "Physics" defaultExams) = true :=
    subjectShapeOk_mkSubject _ _ _ (createId_ne_empty _ _) (by decide)
  have h2 : subjectCompletionsOk (mkSubject (createId "subject" c) "Physics" defaultExams)
      = true := subjectCompletionsOk_mkSubject _ _ _ (by decide)
  have h3 : subjectIdMatches (createId "subject" c)
      (mkSubject (createId "subject" c) "Physics" defaultExams) = true := by
    simp [subjectIdMatches, mkSubject, JsValue.fieldOf, JsObj.ofFields, JsObj.get]
  constructor
  · simp [createDefaultState, stateWellFormed, JsObj.ofFields, JsObj.get,
      JsArr.toList_ofList, h1, h3]
  · simp [createDefaultState, stateCompletionsOk, JsObj.ofFields, JsObj.get,
      JsArr.toList_ofList, h2]

theorem resolvedAct_matches (l : List JsValue) (act₀ : String) (hne : l ≠ [])
    (hall : l.all subjectShapeOk = true) :
    l.any (subjectIdMatches
      (if l.any (subjectIdMatches act₀) then act₀ else firstSubjectId l)) = true := by
  by_cases h : l.any (subjectIdMatches act₀) = true
  · rw [if_pos h]
    exact h
  · have h' : l.any (subjectIdMatches act₀) = false := by simpa using h
    simp only [h', Bool.false_eq_true, if_false]
    exact any_firstSubjectId l hne hall

theorem builtState_ok (L : List JsValue) (act₀ : String) (hne : L ≠ [])
    (hallS : L.all subjectShapeOk = true) (hallC : L.all subjectCompletionsOk = true) :
    stateWellFormed (.obj (JsObj.ofFields
      [("subjects", .arr (JsArr.ofList L)),
       ("activeSubjectId", .str (if L.any (subjectIdMatches act₀) then act₀
          else firstSubjectId L))])) = true ∧
    stateCompletionsOk (.obj (JsObj.ofFields
      [("subjects", .arr (JsArr.ofList L)),
       ("activeSubjectId", .str (if L.any (subjectIdMatches act₀) then act₀
          else firstSubjectId L))])) = true := by
  constructor
  · show (!(JsArr.ofList L).toList.isEmpty &&
        (JsArr.ofList L).toList.all subjectShapeOk &&
        (JsArr.ofList L).toList.any (subjectIdMatches
          (if L.any (subjectIdMatches act₀) then act₀ else firstSubjectId L))) = true
    rw [JsArr.toList_ofList]
    simp only [hallS, resolvedAct_matches L act₀ hne hallS, Bool.and_true]
    simp [hne]
  · show (JsArr.ofList L).toList.all subjectCompletionsOk = true
    rw [JsArr.toList_ofList]
    exact hallC

theorem normalize_not_valid_ok (v : JsValue) (c : Nat) (hv : isValidAppState v = false) :
    stateWellFormed (normalizeStoredValue v c).1 = true ∧
    stateCompletionsOk (normalizeStoredValue v c).1 = true := by
  have hv' : ¬ isValidAppState v = true := by simp [hv]
  cases v with
  | obj fs =>
    cases hs : fs.get "subjects" with
    | some sv =>
      cases sv with
      | arr subs =>
        simp only [normalizeStoredValue, hv', if_false, hs]
        by_cases hE : ((sanitizeSubjectList subs.toList 0 c).1).isEmpty = true
        · simp only [hE, if_true]
          exact createDefaultState_ok _
        · have hE' : ((sanitizeSubjectList subs.toList 0 c).1).isEmpty = false := by
            simpa using hE
          simp only [hE', Bool.false_eq_true, if_false]
          obtain ⟨hallS, hallC⟩ := sanitizeSubjectList_ok subs.toList 0 c
          have hne : (sanitizeSubjectList subs.toList 0 c).1 ≠ [] := by
            intro h0
            rw [h0] at hE'
            simp at hE'
          exact builtState_ok _ _ hne hallS hallC
      | null =>
        simp only [normalizeStoredValue, hv', if_false, hs]
        exact createDefaultState_ok _
      | bool b =>
        simp only [normalizeStoredValue, hv', if_false, hs]
        exact createDefaultState_ok _
      | num x =>
        simp only [normalizeStoredValue, hv', if_false, hs]
        exact createDefaultState_ok _
      | str t =>
        simp only [normalizeStoredValue, hv', if_false, hs]
        exact createDefaultState_ok _
      | obj gs =>
        simp only [normalizeStoredValue, hv', if_false, hs]
        exact createDefaultState_ok _
    | none =>
      simp only [normalizeStoredValue, hv', if_false, hs]
      exact createDefaultState_ok _
  | arr xs =>
    have hallE := sanitizeExamList_sane xs.toList 0 (c + 1)
    have h1 : subjectShapeOk (mkSubject (createId "subject" c) "Physics"
        ((sanitizeExamList xs.toList 0 (c + 1)).1)) = true :=
      subjectShapeOk_mkSubject _ _ _ (createId_ne_empty _ _)
        (all_weaken _ hasNonEmptyId_of_examSane hallE)
    have h2 : subjectCompletionsOk (mkSubject (createId "subject" c) "Physics"
        ((sanitizeExamList xs.toList 0 (c + 1)).1)) = true :=
      subjectCompletionsOk_mkSubject _ _ _
        (all_weaken _ examCompletionOk_of_examSane hallE)
    have h3 : subjectIdMatches (createId "subject" c)
        (mkSubject (createId "subject" c) "Physics"
          ((sanitizeExamList xs.toList 0 (c + 1)).1)) = true := by
      simp [subjectIdMatches, mkSubject, JsValue.fieldOf, JsObj.ofFields, JsObj.get]
    constructor
    · simp only [normalizeStoredValue, hv', if_false]
      simp [stateWellFormed, JsObj.ofFields, JsObj.get, JsArr.toList_ofList, h1, h3]
    · simp only [normalizeStoredValue, hv', if_false]
      simp [stateCompletionsOk, JsObj.ofFields, JsObj.get, JsArr.toList_ofList, h2]
  | null =>
    simp only [normalizeStoredValue, hv', if_false]
    exact createDefaultState_ok _
  | bool b =>
    simp only [normalizeStoredValue, hv', if_false]
    exact createDefaultState_ok _
  | num x =>
    simp only [normalizeStoredValue, hv', if_false]
    exact createDefaultState_ok _
  | str s =>
    simp only [normalizeStoredValue, hv', if_false]
    exact createDefaultState_ok _

/-- C1 (amended): for every input value and counter, `normalizeStoredValue`
returns (by construction without any exception path) a state whose
`subjects` array is non-empty, in which every subject and every exam carries
a non-empty string id, and whose `activeSubjectId` is the id of some member
of `subjects`; and whenever the input is not already accepted by
`isValidAppState`, every exam's completion additionally lies in `[0, 100]`.
The claim's uniqueness of ids, and the completion bound on already-valid
inputs, do not hold (see the counterexample): the valid-input fast path
returns duplicate ids and out-of-range completions unchanged, and the
sanitizers keep duplicate provided ids. -/
theorem normalizeStoredValue_wellFormed (v : JsValue) (c : Nat) :
    stateWellFormed (normalizeStoredValue v c).1 = true ∧
    (isValidAppState v = false → stateCompletionsOk (normalizeStoredValue v c).1 = true) := by
  by_cases hv : isValidAppState v = true
  · rw [normalize_of_valid v c hv]
    exact ⟨stateWellFormed_of_valid v hv, fun hf => absurd hv (by simp [hf])⟩
  · have hv' : isValidAppState v = false := by simpa using hv
    obtain ⟨h1, h2⟩ := normalize_not_valid_ok v c hv'
    exact ⟨h1, fun _ => h2⟩

/-- Witness for `normalizeStoredValue_wellFormed` at input `null` (which
yields the default seed state). -/
theorem normalizeStoredValue_wellFormed_witness :
    stateWellFormed (normalizeStoredValue .null 0).1 = true ∧
    stateCompletionsOk (normalizeStoredValue .null 0).1 = true :=
  ⟨(normalizeStoredValue_wellFormed .null 0).1,
   (normalizeStoredValue_wellFormed .null 0).2 (by decide)⟩

/-- C1 counterexample: `dupIdState` is returned unchanged by the
normalizer, yet its two subjects share the id `"a"` (ids not unique) and its
exam's completion `150` lies outside `[0, 100]`. -/
theorem normalizeStoredValue_unique_clamp_cex :
    subjectIdList (normalizeStoredValue dupIdState 0).1 = ["a", "a"] ∧
    ¬ (subjectIdList (normalizeStoredValue dupIdState 0).1).Nodup ∧
    stateCompletionsOk (normalizeStoredValue dupIdState 0).1 = false := by
  refine ⟨by decide, by decide, by decide⟩
